import Mathlib

/-
  Verification of the signal-generation and trade-simulation engine of a
  single-asset backtesting program (src/app.py).

  Shallow embedding conventions:
  * Prices and monetary amounts are modelled as rationals (ℚ); the source
    uses Python floats, whose divisions and products are modelled exactly.
  * A pandas column cell that may hold NaN is modelled as `Option ℚ`
    (`none` = NaN).  Comparisons against NaN are `false`, as in pandas.
  * Python operations that can raise are modelled in `Except PyErr`:
    `x / 0` raises ZeroDivisionError, `iloc[-1]` on an empty frame raises
    IndexError.
  * A bar's date is modelled by its positional index; the simulator only
    copies dates into trade events, so this loses nothing.
-/

namespace Backtesting

/-- Errors a run of the simulator can raise: Python's ZeroDivisionError and
IndexError. -/
inductive PyErr where
  | zeroDivision
  | indexError
deriving DecidableEq

instance {ε α : Type} [DecidableEq ε] [DecidableEq α] : DecidableEq (Except ε α) := fun a b =>
  match a, b with
  | .error x, .error y =>
    if h : x = y then .isTrue (by rw [h]) else
      .isFalse (fun hh => h (by injection hh))
  | .error _, .ok _ => .isFalse (fun hh => Except.noConfusion hh)
  | .ok _, .error _ => .isFalse (fun hh => Except.noConfusion hh)
  | .ok x, .ok y =>
    if h : x = y then .isTrue (by rw [h]) else
      .isFalse (fun hh => h (by injection hh))

/-- Python float division: raises ZeroDivisionError on a zero divisor
(`balance / price` at line 88 and `profit / initial_balance` at line 100). -/
def pydiv (a b : ℚ) : Except PyErr ℚ :=
  if b = 0 then .error .zeroDivision else .ok (a / b)

/-- One row of the signal-annotated frame, as consumed by `backtest`
(columns `Close` and `Signal`; the date is the row's index).  The `Signal`
column is an integer column: every strategy initialises it to 0 and
overwrites entries with 1 / -1, so it never holds NaN. -/
structure Bar where
  date : ℕ
  close : ℚ
  signal : ℤ
deriving DecidableEq

/-- The action field of a trade tuple (`'BUY'` / `'SELL'` strings in the
source). -/
inductive Action where
  | BUY
  | SELL
deriving DecidableEq

/-- One element of the `trades` list: `(data.index[i], action, price)`. -/
structure TradeEvent where
  date : ℕ
  action : Action
  price : ℚ
deriving DecidableEq

/-- The simulator's mutable state: `balance`, `position` and the `trades`
list of `backtest` (lines 78-80). -/
structure SimState where
  balance : ℚ
  position : ℚ
  trades : List TradeEvent
deriving DecidableEq

/-- One iteration of the `for i in range(len(data))` loop of `backtest`
(lines 82-96): buy all-in when `signal == 1 and position == 0`, sell
everything when `signal == -1 and position > 0`, otherwise do nothing. -/
def step (s : SimState) (b : Bar) : Except PyErr SimState :=
  if b.signal = 1 ∧ s.position = 0 then
    match pydiv s.balance b.close with
    | .error e => .error e
    | .ok units => .ok ⟨0, units, s.trades ++ [⟨b.date, .BUY, b.close⟩]⟩
  else if b.signal = -1 ∧ 0 < s.position then
    .ok ⟨s.position * b.close, 0, s.trades ++ [⟨b.date, .SELL, b.close⟩]⟩
  else
    .ok s

/-- The whole bar-by-bar loop of `backtest`, processing bars in
chronological order. -/
def runBars : List Bar → SimState → Except PyErr SimState
  | [], s => .ok s
  | b :: rest, s =>
    match step s b with
    | .error e => .error e
    | .ok s' => runBars rest s'

/-- Model of `data.dropna(subset=['Signal', 'Close'])` (line 76).  Both
subset columns are total: `Signal` is created as the integer 0 and only
ever overwritten with 1 / -1 (so it is never NaN, including on warm-up
bars), and `Close` is the input price series, present on every bar by the
PriceSeries invariant.  Hence the filter removes no row. -/
def dropnaSignalClose (bars : List Bar) : List Bar := bars

/-- The `backtest` function (lines 73-102): drop NA rows, fold the trading
loop from `(initial_balance, 0, [])`, then mark to market with
`data['Close'].iloc[-1]` and compute profit and percentage. -/
def backtest (bars0 : List Bar) (initial_balance : ℚ) :
    Except PyErr (List TradeEvent × ℚ × ℚ × ℚ) :=
  let bars := dropnaSignalClose bars0
  match runBars bars ⟨initial_balance, 0, []⟩ with
  | .error e => .error e
  | .ok s =>
    match bars.getLast? with
    | none => .error .indexError
    | some last =>
      let final_value := s.balance + s.position * last.close
      let profit := final_value - initial_balance
      match pydiv profit initial_balance with
      | .error e => .error e
      | .ok q => .ok (s.trades, final_value, profit, q * 100)

/-- `Series.rolling(window=w).mean()` with the default `min_periods = w`:
cell `i` is NaN (`none`) until `w` observations are available, then the
unweighted mean of the last `w` values. -/
def rollingMean (w : ℕ) (xs : List ℚ) : List (Option ℚ) :=
  (List.range xs.length).map fun i =>
    if w ≤ i + 1 then some (((xs.drop (i + 1 - w)).take w).sum / (w : ℚ)) else none

/-- Pandas comparison `a > b` between float cells: `false` whenever either
side is NaN. -/
def optGt : Option ℚ → Option ℚ → Bool
  | some a, some b => decide (b < a)
  | _, _ => false

/-- Pandas comparison `a < b` between float cells: `false` whenever either
side is NaN. -/
def optLt : Option ℚ → Option ℚ → Bool
  | some a, some b => decide (a < b)
  | _, _ => false

/-- One row produced by `sma_strategy`: the close, the two SMA columns and
the integer `Signal` column. -/
structure SmaRow where
  date : ℕ
  close : ℚ
  sma20 : Option ℚ
  sma50 : Option ℚ
  signal : ℤ
deriving DecidableEq

/-- `sma_strategy` (lines 21-33): SMA20 and SMA50 of the close, then
`Signal = 0`, set to 1 where `SMA20 > SMA50` and to -1 where
`SMA20 < SMA50` (the two conditions are disjoint, and NaN comparisons are
false, so warm-up rows keep 0). -/
def sma_strategy (closes : List ℚ) : List SmaRow :=
  let s20 := rollingMean 20 closes
  let s50 := rollingMean 50 closes
  (List.range closes.length).map fun i =>
    let a := s20.getD i none
    let b := s50.getD i none
    { date := i, close := closes.getD i 0, sma20 := a, sma50 := b,
      signal := if optGt a b then 1 else if optLt a b then -1 else 0 }

/-- Projection of an annotated SMA row to the columns `backtest` reads. -/
def SmaRow.toBar (r : SmaRow) : Bar := ⟨r.date, r.close, r.signal⟩

/-- The SMA-annotated frame as seen by `backtest`. -/
def smaBars (closes : List ℚ) : List Bar := (sma_strategy closes).map SmaRow.toBar

/-- `data['Close'].diff()` (line 40): NaN on the first row, else the
difference with the previous close. -/
def priceDeltas (xs : List ℚ) : List (Option ℚ) :=
  (List.range xs.length).map fun i =>
    if i = 0 then none else some (xs.getD i 0 - xs.getD (i - 1) 0)

/-- `delta.where(delta > 0, 0)` (line 41): keep positive deltas, replace
everything else — including the leading NaN, whose comparison is false —
by 0. -/
def gainSeries (xs : List ℚ) : List ℚ :=
  (priceDeltas xs).map fun d =>
    match d with
    | some v => if 0 < v then v else 0
    | none => 0

/-- `-delta.where(delta < 0, 0)` (line 42): the magnitude of negative
deltas, 0 elsewhere (again the leading NaN compares false and becomes 0). -/
def lossSeries (xs : List ℚ) : List ℚ :=
  (priceDeltas xs).map fun d =>
    match d with
    | some v => if v < 0 then -v else 0
    | none => 0

/-- One cell of `100 - 100 / (1 + gain/loss)` (lines 44-45) under float
semantics: NaN inputs propagate; a zero loss average gives `rs = +inf`
(hence RSI exactly 100) when the gain average is positive, and `rs = NaN`
(0/0, hence RSI NaN) when it is zero. -/
def rsiCell (g l : Option ℚ) : Option ℚ :=
  match g, l with
  | some gv, some lv =>
    if lv = 0 then (if 0 < gv then some 100 else none)
    else some (100 - 100 / (1 + gv / lv))
  | _, _ => none

/-- The `RSI` column of `rsi_strategy` with the default `period = 14`. -/
def rsiSeries (xs : List ℚ) : List (Option ℚ) :=
  let g := rollingMean 14 (gainSeries xs)
  let l := rollingMean 14 (lossSeries xs)
  (List.range xs.length).map fun i => rsiCell (g.getD i none) (l.getD i none)

/-- One row produced by `rsi_strategy`. -/
structure RsiRow where
  date : ℕ
  close : ℚ
  rsi : Option ℚ
  signal : ℤ
deriving DecidableEq

/-- `rsi_strategy` (lines 37-53) with the default parameters
`period = 14, overbought = 70, oversold = 30`: `Signal = 0`, set to 1
where `RSI < 30` and to -1 where `RSI > 70` (disjoint conditions; NaN
comparisons are false). -/
def rsi_strategy (closes : List ℚ) : List RsiRow :=
  let r := rsiSeries closes
  (List.range closes.length).map fun i =>
    let rv := r.getD i none
    { date := i, close := closes.getD i 0, rsi := rv,
      signal := if optLt rv (some 30) then 1 else if optGt rv (some 70) then -1 else 0 }

/-- Projection of an annotated RSI row to the columns `backtest` reads. -/
def RsiRow.toBar (r : RsiRow) : Bar := ⟨r.date, r.close, r.signal⟩

/-- The RSI-annotated frame as seen by `backtest`. -/
def rsiBars (closes : List ℚ) : List Bar := (rsi_strategy closes).map RsiRow.toBar

/-- The tail of `Series.ewm(adjust=False).mean()`: each cell is
`a * x + (1 - a) * previous`. -/
def emaFrom (a prev : ℚ) : List ℚ → List ℚ
  | [] => []
  | x :: rest =>
    let e := a * x + (1 - a) * prev
    e :: emaFrom a e rest

/-- `Series.ewm(span=s, adjust=False).mean()` with smoothing factor
`a = 2 / (s + 1)`: seeded with the first value, then the standard
exponential recursion.  Every cell of a NaN-free input column is a number —
there is no warm-up NaN. -/
def emaList (a : ℚ) : List ℚ → List ℚ
  | [] => []
  | x :: rest => x :: emaFrom a x rest

/-- One row produced by `macd_strategy`. -/
structure MacdRow where
  date : ℕ
  close : ℚ
  macd : ℚ
  signalLine : ℚ
  signal : ℤ
deriving DecidableEq

/-- `macd_strategy` (lines 56-70): EMA12 and EMA26 of the close
(smoothing factors 2/13 and 2/27), `MACD` their difference, `Signal_Line`
the EMA of `MACD` with span 9 (factor 2/10), and `Signal = 0`, set to 1
where `MACD > Signal_Line` and to -1 where `MACD < Signal_Line`. -/
def macd_strategy (closes : List ℚ) : List MacdRow :=
  let e12 := emaList (2 / 13) closes
  let e26 := emaList (2 / 27) closes
  let m := List.zipWith (fun a b => a - b) e12 e26
  let sl := emaList (2 / 10) m
  (List.range closes.length).map fun i =>
    let mv := m.getD i 0
    let sv := sl.getD i 0
    { date := i, close := closes.getD i 0, macd := mv, signalLine := sv,
      signal := if sv < mv then 1 else if mv < sv then -1 else 0 }

/-- Projection of an annotated MACD row to the columns `backtest` reads. -/
def MacdRow.toBar (r : MacdRow) : Bar := ⟨r.date, r.close, r.signal⟩

/-- The MACD-annotated frame as seen by `backtest`. -/
def macdBars (closes : List ℚ) : List Bar := (macd_strategy closes).map MacdRow.toBar

/-- The strategy-dispatch part of the `__main__` block (lines 126-141): an
unrecognised choice prints "Invalid choice. Defaulting to SMA Crossover."
and proceeds with the SMA strategy; the initial balance is passed to
`backtest` without any validation.  The closes are the already-fetched
price series (`fetch_data` has its own emptiness check, out of the core). -/
def runPipeline (strategy_choice : String) (initial_balance : ℚ) (closes : List ℚ) :
    Except PyErr (List TradeEvent × ℚ × ℚ × ℚ) :=
  let bars :=
    if strategy_choice = "1" then smaBars closes
    else if strategy_choice = "2" then rsiBars closes
    else if strategy_choice = "3" then macdBars closes
    else smaBars closes
  backtest bars initial_balance

section Lemmas

lemma pydiv_ok {b : ℚ} (a : ℚ) (h : b ≠ 0) : pydiv a b = .ok (a / b) := by
  simp [pydiv, h]

lemma step_of_signal_ne (s : SimState) (b : Bar)
    (h1 : ¬(b.signal = 1 ∧ s.position = 0)) (h2 : ¬(b.signal = -1 ∧ 0 < s.position)) :
    step s b = .ok s := by
  simp only [step, if_neg h1, if_neg h2]

lemma step_of_signal_zero (s : SimState) (b : Bar) (h : b.signal = 0) :
    step s b = .ok s := by
  refine step_of_signal_ne s b ?_ ?_ <;> rintro ⟨h', -⟩ <;> omega

lemma runBars_of_signals_zero :
    ∀ (bars : List Bar) (s : SimState), (∀ b ∈ bars, b.signal = 0) →
      runBars bars s = .ok s
  | [], _, _ => rfl
  | b :: rest, s, h => by
    have hb : b.signal = 0 := h b (List.mem_cons_self b rest)
    simp only [runBars, step_of_signal_zero s b hb]
    exact runBars_of_signals_zero rest s fun x hx => h x (List.mem_cons_of_mem b hx)

lemma step_buy {s : SimState} {b : Bar} (hb : b.close ≠ 0)
    (h1 : b.signal = 1) (h2 : s.position = 0) :
    step s b = .ok ⟨0, s.balance / b.close, s.trades ++ [⟨b.date, Action.BUY, b.close⟩]⟩ := by
  simp [step, h1, h2, pydiv_ok s.balance hb]

lemma step_sell {s : SimState} {b : Bar} (h1 : b.signal = -1) (h2 : 0 < s.position) :
    step s b = .ok ⟨s.position * b.close, 0, s.trades ++ [⟨b.date, Action.SELL, b.close⟩]⟩ := by
  have : ¬(b.signal = 1 ∧ s.position = 0) := by rintro ⟨h, -⟩; omega
  simp [step, this, h1, h2]

/-- The simulator's run invariant: the portfolio is all-cash or
all-position, trade actions alternate BUY, SELL, BUY, … from the start of
the log, and the position is flat exactly when the log has even length. -/
def StateInv (s : SimState) : Prop :=
  ((0 < s.balance ∧ s.position = 0) ∨ (s.balance = 0 ∧ 0 < s.position))
  ∧ (∀ i (h : i < s.trades.length),
      (s.trades.get ⟨i, h⟩).action = if i % 2 = 0 then Action.BUY else Action.SELL)
  ∧ (s.position = 0 ↔ s.trades.length % 2 = 0)

lemma trades_append_alt {t : List TradeEvent} {e : TradeEvent}
    (ht : ∀ i (h : i < t.length),
      (t.get ⟨i, h⟩).action = if i % 2 = 0 then Action.BUY else Action.SELL)
    (he : e.action = if t.length % 2 = 0 then Action.BUY else Action.SELL) :
    ∀ i (h : i < (t ++ [e]).length),
      ((t ++ [e]).get ⟨i, h⟩).action = if i % 2 = 0 then Action.BUY else Action.SELL := by
  intro i h
  have hlen : i < t.length + 1 := by simpa using h
  rcases Nat.lt_or_ge i t.length with hi | hi
  · have heq : (t ++ [e]).get ⟨i, h⟩ = t.get ⟨i, hi⟩ := by
      simp only [List.get_eq_getElem]
      exact List.getElem_append_left hi
    rw [heq]; exact ht i hi
  · have hieq : i = t.length := by omega
    subst hieq
    have heq : (t ++ [e]).get ⟨t.length, h⟩ = e := by
      simp [List.get_eq_getElem]
    rw [heq]; exact he

lemma step_inv {s : SimState} {b : Bar} (hc : 0 < b.close) (hs : StateInv s) :
    ∃ s', step s b = .ok s' ∧ StateInv s' := by
  by_cases h1 : b.signal = 1 ∧ s.position = 0
  · obtain ⟨hsig, hpos⟩ := h1
    have hbal : 0 < s.balance := by
      rcases hs.1 with ⟨hb, -⟩ | ⟨-, hp⟩
      · exact hb
      · exact absurd hpos (ne_of_gt hp)
    have heven : s.trades.length % 2 = 0 := hs.2.2.mp hpos
    have hpos' : 0 < s.balance / b.close := div_pos hbal hc
    refine ⟨⟨0, s.balance / b.close, s.trades ++ [⟨b.date, Action.BUY, b.close⟩]⟩,
      step_buy (ne_of_gt hc) hsig hpos, Or.inr ⟨rfl, hpos'⟩,
      trades_append_alt hs.2.1 (by simp [heven]), ?_⟩
    refine iff_of_false (ne_of_gt hpos') ?_
    simp only [List.length_append, List.length_singleton]
    omega
  · by_cases h2 : b.signal = -1 ∧ 0 < s.position
    · obtain ⟨hsig, hpos⟩ := h2
      have hbal : s.balance = 0 := by
        rcases hs.1 with ⟨-, hp⟩ | ⟨hb0, -⟩
        · exact absurd hp (ne_of_gt hpos)
        · exact hb0
      have hodd : s.trades.length % 2 = 1 := by
        have := hs.2.2
        rcases Nat.mod_two_eq_zero_or_one s.trades.length with h | h
        · exact absurd (this.mpr h) (ne_of_gt hpos)
        · exact h
      refine ⟨⟨s.position * b.close, 0, s.trades ++ [⟨b.date, Action.SELL, b.close⟩]⟩,
        step_sell hsig hpos, Or.inl ⟨mul_pos hpos hc, rfl⟩,
        trades_append_alt hs.2.1 (by simp [hodd]), ?_⟩
      refine iff_of_true rfl ?_
      simp only [List.length_append, List.length_singleton]
      omega
    · exact ⟨s, step_of_signal_ne s b h1 h2, hs⟩

lemma runBars_inv : ∀ (bars : List Bar) (s : SimState),
    (∀ b ∈ bars, 0 < b.close) → StateInv s →
    ∃ s', runBars bars s = .ok s' ∧ StateInv s'
  | [], s, _, hs => ⟨s, rfl, hs⟩
  | b :: rest, s, hp, hs => by
    obtain ⟨s1, hstep, hs1⟩ := step_inv (hp b (List.mem_cons_self b rest)) hs
    obtain ⟨s', hrun, hs'⟩ :=
      runBars_inv rest s1 (fun x hx => hp x (List.mem_cons_of_mem b hx)) hs1
    exact ⟨s', by simp only [runBars, hstep, hrun], hs'⟩

lemma stateInv_init {capital : ℚ} (hc : 0 < capital) : StateInv ⟨capital, 0, []⟩ := by
  refine ⟨Or.inl ⟨hc, rfl⟩, ?_, by simp⟩
  intro i h
  exact absurd h (by simp)

lemma runBars_total : ∀ (bars : List Bar) (s : SimState),
    (∀ b ∈ bars, b.close ≠ 0) → ∃ s', runBars bars s = .ok s'
  | [], s, _ => ⟨s, rfl⟩
  | b :: rest, s, hp => by
    have hb := hp b (List.mem_cons_self b rest)
    have hstep : ∃ s1, step s b = .ok s1 := by
      by_cases h1 : b.signal = 1 ∧ s.position = 0
      · exact ⟨_, step_buy hb h1.1 h1.2⟩
      · by_cases h2 : b.signal = -1 ∧ 0 < s.position
        · exact ⟨_, step_sell h2.1 h2.2⟩
        · exact ⟨s, step_of_signal_ne s b h1 h2⟩
    obtain ⟨s1, hstep⟩ := hstep
    obtain ⟨s', hrun⟩ := runBars_total rest s1 (fun x hx => hp x (List.mem_cons_of_mem b hx))
    exact ⟨s', by simp only [runBars, hstep, hrun]⟩

lemma getD_map_range {α : Type} {n : ℕ} (f : ℕ → α) {i : ℕ} (h : i < n) (d : α) :
    ((List.range n).map f).getD i d = f i := by
  simp [List.getD_eq_getElem?_getD, List.getElem?_map, List.getElem?_range h]

lemma get_map_range {α : Type} {n : ℕ} (f : ℕ → α) {i : ℕ}
    (h : i < ((List.range n).map f).length) :
    ((List.range n).map f).get ⟨i, h⟩ = f i := by
  have hn : i < n := by simpa using h
  simp [List.get_eq_getElem, List.getElem_map, List.getElem_range]

lemma mem_map_range {α : Type} {n : ℕ} {f : ℕ → α} {x : α}
    (h : x ∈ (List.range n).map f) : ∃ i, i < n ∧ x = f i := by
  obtain ⟨i, hi, hx⟩ := List.mem_map.mp h
  exact ⟨i, List.mem_range.mp hi, hx.symm⟩

lemma rollingMean_getD_of_lt {w : ℕ} {xs : List ℚ} {i : ℕ} (hi : i < xs.length)
    (h : i + 1 < w) : (rollingMean w xs).getD i none = none := by
  rw [rollingMean, getD_map_range _ hi]
  rw [if_neg (by omega)]

lemma optGt_none_right (a : Option ℚ) : optGt a none = false := by cases a <;> rfl

lemma optLt_none_right (a : Option ℚ) : optLt a none = false := by cases a <;> rfl

lemma optGt_none_left (b : Option ℚ) : optGt none b = false := by cases b <;> rfl

lemma optLt_none_left (b : Option ℚ) : optLt none b = false := by cases b <;> rfl

lemma gainSeries_length (xs : List ℚ) : (gainSeries xs).length = xs.length := by
  simp [gainSeries, priceDeltas]

lemma lossSeries_length (xs : List ℚ) : (lossSeries xs).length = xs.length := by
  simp [lossSeries, priceDeltas]

lemma sma_signal_zero {closes : List ℚ} (hlen : closes.length < 50) :
    ∀ r ∈ sma_strategy closes, r.signal = 0 := by
  intro r hr
  simp only [sma_strategy] at hr
  obtain ⟨i, hi, rfl⟩ := mem_map_range hr
  have h50 : (rollingMean 50 closes).getD i none = none :=
    rollingMean_getD_of_lt hi (by omega)
  simp only [List.getD_eq_getElem?_getD] at h50
  simp [h50, optGt_none_right, optLt_none_right]

lemma rsiSeries_getD_of_lt {closes : List ℚ} {i : ℕ} (hi : i < closes.length)
    (h : i < 13) : (rsiSeries closes).getD i none = none := by
  rw [rsiSeries]
  rw [getD_map_range _ hi]
  have hg : (rollingMean 14 (gainSeries closes)).getD i none = none := by
    apply rollingMean_getD_of_lt ?_ (by omega)
    rw [gainSeries_length]
    exact hi
  rw [hg]
  rfl

lemma rsi_signal_zero {closes : List ℚ} (hlen : closes.length < 14) :
    ∀ r ∈ rsi_strategy closes, r.signal = 0 := by
  intro r hr
  simp only [rsi_strategy] at hr
  obtain ⟨i, hi, rfl⟩ := mem_map_range hr
  have hrv : (rsiSeries closes).getD i none = none := rsiSeries_getD_of_lt hi (by omega)
  simp only [List.getD_eq_getElem?_getD] at hrv
  simp [hrv, optLt_none_left, optGt_none_left]

lemma macd_single_signal_zero (c : ℚ) : ∀ r ∈ macd_strategy [c], r.signal = 0 := by
  intro r hr
  simp only [macd_strategy] at hr
  obtain ⟨i, hi, rfl⟩ := mem_map_range hr
  have hi0 : i = 0 := by simpa using hi
  subst hi0
  simp [emaList, emaFrom, List.zipWith]

lemma smaBars_length (closes : List ℚ) : (smaBars closes).length = closes.length := by
  simp [smaBars, sma_strategy]

lemma rsiBars_length (closes : List ℚ) : (rsiBars closes).length = closes.length := by
  simp [rsiBars, rsi_strategy]

lemma macdBars_length (closes : List ℚ) : (macdBars closes).length = closes.length := by
  simp [macdBars, macd_strategy]

lemma smaBars_signal_zero {closes : List ℚ} (hlen : closes.length < 50) :
    ∀ b ∈ smaBars closes, b.signal = 0 := by
  intro b hb
  obtain ⟨r, hr, rfl⟩ := List.mem_map.mp hb
  exact sma_signal_zero hlen r hr

lemma rsiBars_signal_zero {closes : List ℚ} (hlen : closes.length < 14) :
    ∀ b ∈ rsiBars closes, b.signal = 0 := by
  intro b hb
  obtain ⟨r, hr, rfl⟩ := List.mem_map.mp hb
  exact rsi_signal_zero hlen r hr

lemma macdBars_single_signal_zero (c : ℚ) : ∀ b ∈ macdBars [c], b.signal = 0 := by
  intro b hb
  obtain ⟨r, hr, rfl⟩ := List.mem_map.mp hb
  exact macd_single_signal_zero c r hr

lemma backtest_no_trades (bars : List Bar) (capital : ℚ) (hne : bars ≠ [])
    (hc : capital ≠ 0) (hz : ∀ b ∈ bars, b.signal = 0) :
    backtest bars capital = .ok ([], capital, 0, 0) := by
  have hrun := runBars_of_signals_zero bars ⟨capital, 0, []⟩ hz
  have hlast := List.getLast?_eq_getLast bars hne
  simp only [backtest, dropnaSignalClose, hrun, hlast]
  have hq := pydiv_ok (0 : ℚ) hc
  simp [hq]

lemma length_ne_zero_of_ne_nil {closes : List ℚ} (hne : closes ≠ [])
    {bars : List Bar} (hl : bars.length = closes.length) : bars ≠ [] := by
  intro h0
  rw [h0] at hl
  exact hne (List.length_eq_zero.mp hl.symm)

lemma rollingMean_getD_none_iff {w : ℕ} {xs : List ℚ} {i : ℕ} (hi : i < xs.length) :
    ((rollingMean w xs).getD i none = none) ↔ i + 1 < w := by
  rw [rollingMean, getD_map_range _ hi]
  rcases le_or_lt w (i + 1) with h | h
  · rw [if_pos h]
    simp
    omega
  · rw [if_neg (not_le.mpr h)]
    simp [h]

lemma sma_strategy_get (closes : List ℚ) (i : ℕ) (h : i < (sma_strategy closes).length) :
    ((sma_strategy closes).get ⟨i, h⟩).sma20 = (rollingMean 20 closes).getD i none
    ∧ ((sma_strategy closes).get ⟨i, h⟩).sma50 = (rollingMean 50 closes).getD i none := by
  simp only [sma_strategy] at h ⊢
  rw [get_map_range _ h]
  exact ⟨rfl, rfl⟩

lemma rsi_strategy_get (closes : List ℚ) (i : ℕ) (h : i < (rsi_strategy closes).length) :
    ((rsi_strategy closes).get ⟨i, h⟩).rsi = (rsiSeries closes).getD i none
    ∧ ((rsi_strategy closes).get ⟨i, h⟩).signal =
        (if optLt ((rsiSeries closes).getD i none) (some 30) then 1
         else if optGt ((rsiSeries closes).getD i none) (some 70) then -1 else 0) := by
  simp only [rsi_strategy] at h ⊢
  rw [get_map_range _ h]
  exact ⟨rfl, rfl⟩

lemma macd_strategy_get_zero (c : ℚ) (closes : List ℚ)
    (h : 0 < (macd_strategy (c :: closes)).length) :
    ((macd_strategy (c :: closes)).get ⟨0, h⟩).macd = c - c
    ∧ ((macd_strategy (c :: closes)).get ⟨0, h⟩).signalLine = c - c := by
  simp only [macd_strategy] at h ⊢
  rw [get_map_range _ h]
  constructor <;> simp [emaList, emaFrom, List.zipWith]

end Lemmas

/-- C1.  The simulator's per-bar transition (lines 87-96 of `backtest`)
implements exactly the Flat/Invested state machine of the spec: with zero
units and a Buy signal the whole balance is converted at the bar's close
(units = cash / price, cash becomes 0) and a BUY event is appended; with a
positive position and a Sell signal everything is liquidated
(cash = units × price, units become 0) and a SELL event is appended; every
other combination of state and signal leaves balance, position and the
trade log unchanged. -/
theorem trade_step_state_machine (s : SimState) (b : Bar) (hb : b.close ≠ 0) :
    (b.signal = 1 → s.position = 0 →
      step s b = .ok ⟨0, s.balance / b.close, s.trades ++ [⟨b.date, Action.BUY, b.close⟩]⟩)
  ∧ (b.signal = -1 → 0 < s.position →
      step s b = .ok ⟨s.position * b.close, 0, s.trades ++ [⟨b.date, Action.SELL, b.close⟩]⟩)
  ∧ (¬(b.signal = 1 ∧ s.position = 0) → ¬(b.signal = -1 ∧ 0 < s.position) →
      step s b = .ok s) :=
  ⟨fun h1 h2 => step_buy hb h1 h2, fun h1 h2 => step_sell h1 h2, step_of_signal_ne s b⟩

/-- Witness for C1: a concrete Buy transition, all-in at price 4 from a
balance of 100. -/
theorem trade_step_state_machine_witness :
    step ⟨100, 0, []⟩ ⟨7, 4, 1⟩ = .ok ⟨0, (100 : ℚ) / 4, [⟨7, Action.BUY, 4⟩]⟩ :=
  (trade_step_state_machine ⟨100, 0, []⟩ ⟨7, 4, 1⟩ (by norm_num)).1 rfl rfl

/-- C2.  Starting from a positive capital, over bars whose close prices
are all positive, after processing any number of bars exactly one of
cash balance > 0 and units held > 0 holds: at least one is positive and
never are both positive. -/
theorem cash_units_exclusive (bars : List Bar) (capital : ℚ)
    (hc : 0 < capital) (hp : ∀ b ∈ bars, 0 < b.close) (k : ℕ) :
    ∃ s, runBars (bars.take k) ⟨capital, 0, []⟩ = .ok s ∧
      (0 < s.balance ∨ 0 < s.position) ∧ ¬(0 < s.balance ∧ 0 < s.position) := by
  obtain ⟨s, hrun, hs⟩ := runBars_inv (bars.take k) ⟨capital, 0, []⟩
    (fun b hb => hp b (List.take_subset k bars hb)) (stateInv_init hc)
  refine ⟨s, hrun, ?_, ?_⟩
  · rcases hs.1 with ⟨h, -⟩ | ⟨-, h⟩
    · exact Or.inl h
    · exact Or.inr h
  · rintro ⟨hb, hpos⟩
    rcases hs.1 with ⟨-, h0⟩ | ⟨h0, -⟩
    · exact (ne_of_gt hpos) h0
    · exact (ne_of_gt hb) h0

/-- Witness for C2: one bar with a Buy signal at price 2 from capital 100;
after that bar the portfolio is all-position. -/
theorem cash_units_exclusive_witness :
    ∃ s, runBars (List.take 1 [(⟨0, 2, 1⟩ : Bar)]) ⟨100, 0, []⟩ = .ok s ∧
      (0 < s.balance ∨ 0 < s.position) ∧ ¬(0 < s.balance ∧ 0 < s.position) :=
  cash_units_exclusive [⟨0, 2, 1⟩] 100 (by norm_num)
    (by intro b hb; simp at hb; rw [hb]; norm_num) 1

/-- C3.  Under the simulator's contract (positive capital, positive close
prices), the trade log it produces holds a BUY at every even index and a
SELL at every odd one: it starts with BUY when non-empty and strictly
alternates, so no two consecutive events share a type. -/
theorem trade_log_alternates (bars : List Bar) (capital : ℚ)
    (hc : 0 < capital) (hp : ∀ b ∈ bars, 0 < b.close) :
    ∃ s, runBars bars ⟨capital, 0, []⟩ = .ok s ∧
      ∀ i (h : i < s.trades.length),
        (s.trades.get ⟨i, h⟩).action = if i % 2 = 0 then Action.BUY else Action.SELL := by
  obtain ⟨s, hrun, hs⟩ := runBars_inv bars ⟨capital, 0, []⟩ hp (stateInv_init hc)
  exact ⟨s, hrun, hs.2.1⟩

/-- Witness for C3: a Buy bar then a Sell bar produce an alternating
two-event log. -/
theorem trade_log_alternates_witness :
    ∃ s, runBars [(⟨0, 2, 1⟩ : Bar), ⟨1, 4, -1⟩] ⟨100, 0, []⟩ = .ok s ∧
      ∀ i (h : i < s.trades.length),
        (s.trades.get ⟨i, h⟩).action = if i % 2 = 0 then Action.BUY else Action.SELL :=
  trade_log_alternates [⟨0, 2, 1⟩, ⟨1, 4, -1⟩] 100 (by norm_num)
    (by intro b hb; simp at hb; rcases hb with h | h <;> rw [h] <;> norm_num)

/-- C9.  Over any non-empty series (with the contract's positive capital
and non-degenerate prices), `backtest` terminates with
finalValue = balance + position × last close — the open position is marked
to market, no SELL event is appended — profit = finalValue − capital, and
profitPercent = profit / capital × 100. -/
theorem backtest_summary (bars : List Bar) (capital : ℚ) (hne : bars ≠ [])
    (hc : 0 < capital) (hp : ∀ b ∈ bars, b.close ≠ 0) :
    ∃ s last, runBars bars ⟨capital, 0, []⟩ = .ok s ∧ bars.getLast? = some last ∧
      backtest bars capital =
        .ok (s.trades, s.balance + s.position * last.close,
          s.balance + s.position * last.close - capital,
          (s.balance + s.position * last.close - capital) / capital * 100) := by
  obtain ⟨s, hrun⟩ := runBars_total bars ⟨capital, 0, []⟩ hp
  have hlast : bars.getLast? = some (bars.getLast hne) := List.getLast?_eq_getLast bars hne
  refine ⟨s, bars.getLast hne, hrun, hlast, ?_⟩
  simp only [backtest, dropnaSignalClose, hrun, hlast]
  rw [pydiv_ok _ (ne_of_gt hc)]

/-- Witness for C9: a single Neutral bar at price 1 with capital 100. -/
theorem backtest_summary_witness :
    ∃ s last, runBars [(⟨0, 1, 0⟩ : Bar)] ⟨100, 0, []⟩ = .ok s ∧
      [(⟨0, 1, 0⟩ : Bar)].getLast? = some last ∧
      backtest [(⟨0, 1, 0⟩ : Bar)] 100 =
        .ok (s.trades, s.balance + s.position * last.close,
          s.balance + s.position * last.close - 100,
          (s.balance + s.position * last.close - 100) / 100 * 100) :=
  backtest_summary [⟨0, 1, 0⟩] 100 (by simp) (by norm_num)
    (by intro b hb; simp at hb; rw [hb]; norm_num)

/-- C10.  The two divisions of the simulator are guarded by the contract:
with every close price positive and a positive initial capital, `backtest`
can never return the ZeroDivisionError branch (neither from
`balance / price` on a Buy nor from `profit / initial_balance` in the
summary). -/
theorem division_guarded (bars : List Bar) (capital : ℚ)
    (hc : 0 < capital) (hp : ∀ b ∈ bars, 0 < b.close) :
    backtest bars capital ≠ .error PyErr.zeroDivision := by
  obtain ⟨s, hrun⟩ := runBars_total bars ⟨capital, 0, []⟩ (fun b hb => ne_of_gt (hp b hb))
  simp only [backtest, dropnaSignalClose, hrun]
  cases hlast : bars.getLast? with
  | none => simp
  | some last =>
    have hq := pydiv_ok (s.balance + s.position * last.close - capital) (ne_of_gt hc)
    simp [hq]

/-- Witness for C10: a one-bar Buy series with price 1 and capital 100. -/
theorem division_guarded_witness :
    backtest [(⟨0, 1, 1⟩ : Bar)] 100 ≠ .error PyErr.zeroDivision :=
  division_guarded [⟨0, 1, 1⟩] 100 (by norm_num)
    (by intro b hb; simp at hb; rw [hb]; norm_num)

/-- C8.  A non-empty series shorter than the chosen strategy's longest
warm-up window yields all-Neutral signals, zero trades and a final value
equal to the initial capital, returned as a normal result: for the SMA
strategy the longest window is the 50-bar SMA, for RSI the 14-bar rolling
mean; the MACD EMAs are seeded from the first bar, so MACD has no warm-up
window at all and the single-bar scenario (covering every strategy's
"single-bar series" case) is proved for it directly. -/
theorem insufficient_history_flat_result :
    (∀ (closes : List ℚ) (capital : ℚ), closes ≠ [] → closes.length < 50 → capital ≠ 0 →
      (∀ r ∈ sma_strategy closes, r.signal = 0) ∧
      backtest (smaBars closes) capital = .ok ([], capital, 0, 0))
  ∧ (∀ (closes : List ℚ) (capital : ℚ), closes ≠ [] → closes.length < 14 → capital ≠ 0 →
      (∀ r ∈ rsi_strategy closes, r.signal = 0) ∧
      backtest (rsiBars closes) capital = .ok ([], capital, 0, 0))
  ∧ (∀ (c capital : ℚ), capital ≠ 0 →
      (∀ r ∈ macd_strategy [c], r.signal = 0) ∧
      backtest (macdBars [c]) capital = .ok ([], capital, 0, 0)) := by
  refine ⟨fun closes capital hne hlen hc => ⟨sma_signal_zero hlen, ?_⟩,
          fun closes capital hne hlen hc => ⟨rsi_signal_zero hlen, ?_⟩,
          fun c capital hc => ⟨macd_single_signal_zero c, ?_⟩⟩
  · exact backtest_no_trades _ _ (length_ne_zero_of_ne_nil hne (smaBars_length closes))
      hc (smaBars_signal_zero hlen)
  · exact backtest_no_trades _ _ (length_ne_zero_of_ne_nil hne (rsiBars_length closes))
      hc (rsiBars_signal_zero hlen)
  · exact backtest_no_trades _ _
      (length_ne_zero_of_ne_nil (by simp) (macdBars_length [c]))
      hc (macdBars_single_signal_zero c)

/-- Witness for C8: a single-bar series under the SMA strategy with
capital 100 gives zero trades and final value 100. -/
theorem insufficient_history_flat_result_witness :
    backtest (smaBars [(1 : ℚ)]) 100 = .ok ([], 100, 0, 0) :=
  (insufficient_history_flat_result.1 [1] 100 (by simp) (by simp) (by norm_num)).2

/-- C5.  Warm-up indicator cells carry the explicit NaN marker, never a
number: in the SMA strategy the SMA20 cell is `none` exactly on the first
19 bars and the SMA50 cell exactly on the first 49; in the RSI strategy
the RSI cell is `none` on each of the first 13 bars (one delta is consumed
by `diff()`, so the 14-bar rolling mean resolves from bar 13 on); the MACD
EMAs are seeded with the first close (`adjust=False`), so already the very
first bar carries computed MACD and signal-line values — its warm-up
window is empty and the claim holds vacuously for it. -/
theorem warmup_cells_undefined :
    (∀ (closes : List ℚ) (i : ℕ) (h : i < (sma_strategy closes).length),
      (((sma_strategy closes).get ⟨i, h⟩).sma20 = none ↔ i < 19)
      ∧ (((sma_strategy closes).get ⟨i, h⟩).sma50 = none ↔ i < 49))
  ∧ (∀ (closes : List ℚ) (i : ℕ) (h : i < (rsi_strategy closes).length),
      i < 13 → ((rsi_strategy closes).get ⟨i, h⟩).rsi = none)
  ∧ (∀ (c : ℚ) (closes : List ℚ) (h : 0 < (macd_strategy (c :: closes)).length),
      ((macd_strategy (c :: closes)).get ⟨0, h⟩).macd = c - c
      ∧ ((macd_strategy (c :: closes)).get ⟨0, h⟩).signalLine = c - c) := by
  refine ⟨fun closes i h => ?_, fun closes i h hlt => ?_, macd_strategy_get_zero⟩
  · have hi : i < closes.length := by simpa [sma_strategy] using h
    obtain ⟨h20, h50⟩ := sma_strategy_get closes i h
    rw [h20, h50, rollingMean_getD_none_iff hi, rollingMean_getD_none_iff hi]
    omega
  · have hi : i < closes.length := by simpa [rsi_strategy] using h
    rw [(rsi_strategy_get closes i h).1]
    exact rsiSeries_getD_of_lt hi hlt

/-- Witness for C5: on a 2-bar series, bar 0 of the SMA strategy carries
`none` in both SMA cells, bar 0 of the RSI strategy carries `none` in the
RSI cell, and bar 0 of the MACD strategy carries computed (non-NaN)
values. -/
theorem warmup_cells_undefined_witness :
    ((sma_strategy [(1 : ℚ), 2]).get ⟨0, by decide⟩).sma20 = none
    ∧ ((rsi_strategy [(1 : ℚ), 2]).get ⟨0, by decide⟩).rsi = none
    ∧ ((macd_strategy ((1 : ℚ) :: [2])).get ⟨0, by decide⟩).macd = (1 : ℚ) - 1 :=
  ⟨(warmup_cells_undefined.1 [(1 : ℚ), 2] 0 (by decide)).1.mpr (by decide),
   warmup_cells_undefined.2.1 [(1 : ℚ), 2] 0 (by decide) (by decide),
   (warmup_cells_undefined.2.2 1 [2] (by decide)).1⟩

/-- C7.  Whenever the 14-bar average loss is exactly 0 while the average
gain is positive (all deltas in the window non-negative, at least one
positive), the RSI cell is exactly 100 — the float division yields +inf,
`100 - 100/(1+inf) = 100`, no error is raised — and, since 100 > 70, the
bar's signal is Sell (-1). -/
theorem rsi_saturates_at_100 (closes : List ℚ) (i : ℕ) (hi : i < closes.length) (g : ℚ)
    (hg : (rollingMean 14 (gainSeries closes)).getD i none = some g)
    (hl : (rollingMean 14 (lossSeries closes)).getD i none = some 0)
    (hgpos : 0 < g) :
    (rsiSeries closes).getD i none = some 100
    ∧ ∀ (h : i < (rsi_strategy closes).length),
        ((rsi_strategy closes).get ⟨i, h⟩).signal = -1 := by
  have hcell : (rsiSeries closes).getD i none = some 100 := by
    rw [rsiSeries, getD_map_range _ hi, hg, hl]
    simp [rsiCell, hgpos]
  refine ⟨hcell, fun h => ?_⟩
  rw [(rsi_strategy_get closes i h).2, hcell]
  norm_num [optLt, optGt]

/-- Witness for C7: prices 1,2,…,15 rise every day, so at bar 13 the
average loss is 0, the average gain is 13/14, RSI is 100 and the signal
is Sell. -/
theorem rsi_saturates_at_100_witness :
    (rsiSeries [1, 2, 3, 4, 5, 6, 7, 8, 9, 10, 11, 12, 13, 14, 15]).getD 13 none = some 100
    ∧ ((rsi_strategy [1, 2, 3, 4, 5, 6, 7, 8, 9, 10, 11, 12, 13, 14, 15]).get
        ⟨13, by decide⟩).signal = -1 := by
  have h := rsi_saturates_at_100 [1, 2, 3, 4, 5, 6, 7, 8, 9, 10, 11, 12, 13, 14, 15]
    13 (by decide) (13 / 14)
    (by with_unfolding_all decide) (by with_unfolding_all decide) (by norm_num)
  exact ⟨h.1, h.2 (by decide)⟩

/-- Counterexample to C4.  On a 50-bar constant series under the SMA
strategy, 49 bars are warm-up bars (their SMA50 cell is the NaN marker),
yet the series the simulator iterates over — the `dropna` result — still
has all 50 bars: were the warm-up bars discarded, it would have
50 − 49 = 1 bars.  `dropna(subset=['Signal','Close'])` removes nothing
because the Signal column is integer-valued (0 on warm-up bars), not NaN. -/
theorem warmup_not_discarded_cex :
    (dropnaSignalClose (smaBars (List.replicate 50 (1 : ℚ)))).length = 50
    ∧ ((sma_strategy (List.replicate 50 (1 : ℚ))).filter (fun r => r.sma50.isNone)).length = 49
    ∧ (dropnaSignalClose (smaBars (List.replicate 50 (1 : ℚ)))).length ≠ 50 - 49 := by
  refine ⟨?_, by with_unfolding_all decide, ?_⟩
  · rw [dropnaSignalClose, smaBars_length, List.length_replicate]
  · rw [dropnaSignalClose, smaBars_length, List.length_replicate]
    omega

/-- C4 as amended.  The pre-simulation `dropna` removes no bar at all —
warm-up bars reach the simulator — but each warm-up bar (undefined SMA50,
respectively undefined RSI) carries the Neutral signal 0, and a bar with
signal 0 leaves the simulator state unchanged, so no trade can occur on a
warm-up bar. -/
theorem warmup_bars_neutral (closes : List ℚ) :
    dropnaSignalClose (smaBars closes) = smaBars closes
    ∧ (∀ r ∈ sma_strategy closes, r.sma50 = none → r.signal = 0)
    ∧ (∀ r ∈ rsi_strategy closes, r.rsi = none → r.signal = 0)
    ∧ (∀ (s : SimState) (b : Bar), b.signal = 0 → step s b = .ok s) := by
  refine ⟨rfl, ?_, ?_, step_of_signal_zero⟩
  · intro r hr h50
    simp only [sma_strategy] at hr
    obtain ⟨i, hi, rfl⟩ := mem_map_range hr
    simp only [List.getD_eq_getElem?_getD] at h50
    simp [h50, optGt_none_right, optLt_none_right]
  · intro r hr hrv
    simp only [rsi_strategy] at hr
    obtain ⟨i, hi, rfl⟩ := mem_map_range hr
    simp only [List.getD_eq_getElem?_getD] at hrv
    simp [hrv, optLt_none_left, optGt_none_left]

/-- Witness for the amended C4: a Neutral bar is a no-op for the
simulator. -/
theorem warmup_bars_neutral_witness :
    step ⟨5, 0, []⟩ ⟨0, 1, 0⟩ = .ok ⟨5, 0, []⟩ :=
  (warmup_bars_neutral []).2.2.2 ⟨5, 0, []⟩ ⟨0, 1, 0⟩ rfl

/-- Counterexample to C6.  A configuration with the unrecognized strategy
selector "7" and the non-positive initial capital −50 does not abort: the
run silently falls back to the SMA strategy and completes normally,
returning a flat result with the negative capital untouched. -/
theorem invalid_config_not_rejected_cex :
    runPipeline "7" (-50) [1, 1] = .ok ([], -50, 0, 0) := by
  with_unfolding_all decide

/-- C6 as amended.  An unrecognized strategy selector is not rejected:
the run prints a warning and proceeds exactly as with the SMA crossover
strategy, and the initial capital — positive or not — is passed to the
simulator unvalidated. -/
theorem invalid_choice_defaults (choice : String) (capital : ℚ) (closes : List ℚ)
    (h1 : choice ≠ "1") (h2 : choice ≠ "2") (h3 : choice ≠ "3") :
    runPipeline choice capital closes = backtest (smaBars closes) capital := by
  simp [runPipeline, h1, h2, h3]

/-- Witness for the amended C6: selector "9" with capital 100 runs the SMA
pipeline. -/
theorem invalid_choice_defaults_witness :
    runPipeline "9" 100 [1] = backtest (smaBars [1]) 100 :=
  invalid_choice_defaults "9" 100 [1] (by decide) (by decide) (by decide)

end Backtesting
